import Mathlib

/-!
Formal model of the web calculator engine implemented in
`src/generated/generated_project/script.js`.

The `Calculator` class keeps three pieces of state: `currentInput` (a
string), `previousValue` (a number or `null`) and `operator` (one of
`"+" "-" "*" "/"` or `null`), plus the display element's text.  We embed
strings as `List Char`, JavaScript numbers as `ℚ` (exact rational
arithmetic; the IEEE-754 rounding of doubles is not modelled), nullable
fields as `Option`, and the display as a fourth state field.

String/number conversions are modelled from the JavaScript built-ins:
`parseFloat` (optional minus sign, integer digits, optional fractional
digits, ignoring any trailing junk), `parseInt` (optional minus sign and
digit prefix, `NaN` when no digits), and `Number.prototype.toString`
(exact decimal notation).  JavaScript guarantees that
`parseFloat(x.toString()) === x` for every finite double; to mirror that
round-trip exactly, `numToStr` falls back to an exact `num/den` notation
for rationals whose decimal expansion does not terminate (a case that
cannot arise for binary doubles), and `strToNum` understands that
notation.
-/

namespace CalcModel

/-- The character for a decimal digit value (`0 ↦ '0'`, …, `9 ↦ '9'`).
Values `≥ 10` do not occur; the catch-all arm is arbitrary. -/
def digitChar : Nat → Char
  | 0 => '0' | 1 => '1' | 2 => '2' | 3 => '3' | 4 => '4'
  | 5 => '5' | 6 => '6' | 7 => '7' | 8 => '8' | 9 => '9'
  | _ => '0'

/-- Numeric value of a digit character (JavaScript `c.charCodeAt(0) - 48`). -/
def digitVal (c : Char) : Nat := c.toNat - 48

/-- The number denoted by a list of decimal digit values, most significant
first: `digitsVal [1,2,3] = 123`. -/
def digitsVal : List Nat → Nat
  | [] => 0
  | d :: t => d * 10 ^ t.length + digitsVal t

/-- Fuel-driven decimal expansion of a natural number (the fuel makes the
recursion structural so that terms reduce in the kernel). -/
def natToDigitsAux : Nat → Nat → List Nat
  | 0, _ => []
  | fuel + 1, n => if n < 10 then [n] else natToDigitsAux fuel (n / 10) ++ [n % 10]

/-- Decimal digits of a natural number, most significant first. -/
def natToDigits (n : Nat) : List Nat := natToDigitsAux (n + 1) n

/-- Decimal numeral of a natural number, as a character list. -/
def natToDigitChars (n : Nat) : List Char := (natToDigits n).map digitChar

/-- Greedily parse a decimal digit prefix.  Returns the value of the digit
prefix, the number of digits consumed, and the unconsumed remainder. -/
def parseDigits : List Char → Nat × Nat × List Char
  | [] => (0, 0, [])
  | c :: t =>
    if c.isDigit then
      let p := parseDigits t
      (digitVal c * 10 ^ p.2.1 + p.1, p.2.1 + 1, p.2.2)
    else (0, 0, c :: t)

/-- Does the list start with a digit character? -/
def headIsDigit : List Char → Bool
  | [] => false
  | c :: _ => c.isDigit

theorem digitVal_digitChar {d : Nat} (h : d < 10) : digitVal (digitChar d) = d := by
  interval_cases d <;> rfl

theorem isDigit_digitChar {d : Nat} (h : d < 10) : (digitChar d).isDigit = true := by
  interval_cases d <;> rfl

theorem digitChar_ne_minus {d : Nat} (h : d < 10) : digitChar d ≠ '-' := by
  interval_cases d <;> decide

theorem digitChar_ne_dot {d : Nat} (h : d < 10) : digitChar d ≠ '.' := by
  interval_cases d <;> decide

theorem digitChar_ne_zero {d : Nat} (h : d < 10) (h0 : d ≠ 0) : digitChar d ≠ '0' := by
  interval_cases d <;> simp_all <;> decide

theorem digitsVal_append_singleton (l : List Nat) (d : Nat) :
    digitsVal (l ++ [d]) = 10 * digitsVal l + d := by
  induction l with
  | nil => simp [digitsVal]
  | cons e t ih =>
    have hlen : (t ++ [d]).length = t.length + 1 := by simp
    simp only [List.cons_append, digitsVal, List.append_eq, ih, hlen]
    ring

theorem natToDigitsAux_spec :
    ∀ fuel n, n < fuel →
      digitsVal (natToDigitsAux fuel n) = n ∧
      (∀ d ∈ natToDigitsAux fuel n, d < 10) ∧
      natToDigitsAux fuel n ≠ [] := by
  intro fuel
  induction fuel with
  | zero => intro n h; omega
  | succ fuel ih =>
    intro n h
    by_cases h10 : n < 10
    · simp [natToDigitsAux, h10, digitsVal]
    · have hdiv : n / 10 < fuel := by
        have h1 : n / 10 < n := Nat.div_lt_self (by omega) (by omega)
        omega
      obtain ⟨h1, h2, h3⟩ := ih (n / 10) hdiv
      rw [natToDigitsAux, if_neg h10]
      refine ⟨?_, ?_, ?_⟩
      · rw [digitsVal_append_singleton, h1]; omega
      · intro d hd
        rcases List.mem_append.mp hd with hd | hd
        · exact h2 d hd
        · simp only [List.mem_singleton] at hd; omega
      · simp

theorem digitsVal_natToDigits (n : Nat) : digitsVal (natToDigits n) = n :=
  (natToDigitsAux_spec (n + 1) n (Nat.lt_succ_self n)).1

theorem natToDigits_lt10 (n : Nat) : ∀ d ∈ natToDigits n, d < 10 :=
  (natToDigitsAux_spec (n + 1) n (Nat.lt_succ_self n)).2.1

theorem natToDigits_ne_nil (n : Nat) : natToDigits n ≠ [] :=
  (natToDigitsAux_spec (n + 1) n (Nat.lt_succ_self n)).2.2

theorem natToDigitsAux_fuel_irrel :
    ∀ f1 f2 n, n < f1 → n < f2 → natToDigitsAux f1 n = natToDigitsAux f2 n := by
  intro f1
  induction f1 with
  | zero => intro f2 n h; omega
  | succ f1 ih =>
    intro f2 n h1 h2
    cases f2 with
    | zero => omega
    | succ f2 =>
      by_cases h10 : n < 10
      · rw [natToDigitsAux, natToDigitsAux, if_pos h10, if_pos h10]
      · have hda : n / 10 < f1 := by
          have := Nat.div_lt_self (show 0 < n by omega) (show 1 < 10 by omega)
          omega
        have hdb : n / 10 < f2 := by
          have := Nat.div_lt_self (show 0 < n by omega) (show 1 < 10 by omega)
          omega
        rw [natToDigitsAux, natToDigitsAux, if_neg h10, if_neg h10, ih f2 (n / 10) hda hdb]

theorem natToDigits_single {d : Nat} (h : d < 10) : natToDigits d = [d] := by
  rw [natToDigits, natToDigitsAux, if_pos h]

theorem natToDigits_step (m x : Nat) (hx : x < 10) (hm : m ≠ 0) :
    natToDigits (10 * m + x) = natToDigits m ++ [x] := by
  have hge : ¬ (10 * m + x < 10) := by omega
  have hdiv : (10 * m + x) / 10 = m := by omega
  have hmod : (10 * m + x) % 10 = x := by omega
  rw [natToDigits, natToDigitsAux, if_neg hge, hdiv, hmod]
  rw [natToDigitsAux_fuel_irrel (10 * m + x) (m + 1) m (by omega) (by omega)]
  rfl

/-- Uniqueness of decimal expansions: expanding the value of a digit list
with nonzero leading digit gives back the same list. -/
theorem natToDigits_digitsVal (d : Nat) (t : List Nat) (hd0 : d ≠ 0)
    (h : ∀ x ∈ d :: t, x < 10) : natToDigits (digitsVal (d :: t)) = d :: t := by
  induction t using List.reverseRecOn with
  | nil =>
    have : digitsVal [d] = d := by simp [digitsVal]
    rw [this, natToDigits_single (h d (by simp))]
  | append_singleton l x ih =>
    have hx : x < 10 := h x (by simp)
    have hval : digitsVal (d :: (l ++ [x])) = 10 * digitsVal (d :: l) + x := by
      have : d :: (l ++ [x]) = (d :: l) ++ [x] := by simp
      rw [this, digitsVal_append_singleton]
    have hpos : digitsVal (d :: l) ≠ 0 := by
      have : 1 ≤ d * 10 ^ l.length := by
        have : 1 ≤ 10 ^ l.length := Nat.one_le_pow _ _ (by omega)
        calc 1 ≤ 10 ^ l.length := this
        _ ≤ d * 10 ^ l.length := Nat.le_mul_of_pos_left _ (by omega)
      simp only [digitsVal]
      omega
    have hsub : ∀ y ∈ d :: l, y < 10 := by
      intro y hy
      rcases List.mem_cons.mp hy with rfl | hy
      · exact h y (by simp)
      · exact h y (by simp [hy])
    rw [hval, natToDigits_step _ _ hx hpos, ih hsub]
    simp

theorem mem_natToDigitChars_isDigit (n : Nat) (c : Char) (h : c ∈ natToDigitChars n) :
    c.isDigit = true := by
  rw [natToDigitChars] at h
  obtain ⟨d, hd, rfl⟩ := List.mem_map.mp h
  exact isDigit_digitChar (natToDigits_lt10 n d hd)

theorem parseDigits_append (ds : List Nat) (rest : List Char)
    (h : ∀ d ∈ ds, d < 10) (hr : headIsDigit rest = false) :
    parseDigits (ds.map digitChar ++ rest) = (digitsVal ds, ds.length, rest) := by
  induction ds with
  | nil =>
    simp only [List.map_nil, List.nil_append]
    cases rest with
    | nil => rfl
    | cons c t =>
      simp only [headIsDigit] at hr
      simp [parseDigits, hr, digitsVal]
  | cons d t ih =>
    have hd : d < 10 := h d (by simp)
    simp only [List.map_cons, List.cons_append, parseDigits,
      isDigit_digitChar hd, if_true, List.append_eq]
    rw [ih (fun x hx => h x (by simp [hx])) ]
    simp [digitsVal, digitVal_digitChar hd]

/-- After the integer and fractional parts, `parseFloat`-style parsing of
the exact `num/den` fallback notation (see the module comment); any other
remainder is ignored, as `parseFloat` ignores trailing junk. -/
def afterFrac (v : ℚ) (rest : List Char) : ℚ :=
  match rest with
  | '/' :: t => v / ((parseDigits t).1 : ℚ)
  | _ => v

/-- After the integer part: an optional `'.'` followed by fractional
digits, as in JavaScript `parseFloat`. -/
def afterInt (v : ℚ) (rest : List Char) : ℚ :=
  match rest with
  | '.' :: t =>
    afterFrac (v + ((parseDigits t).1 : ℚ) / 10 ^ (parseDigits t).2.1) (parseDigits t).2.2
  | _ => afterFrac v rest

/-- Unsigned part of the `parseFloat` model: integer digits, then an
optional fractional part. -/
def strToNumNN (s : List Char) : ℚ :=
  afterInt ((parseDigits s).1 : ℚ) (parseDigits s).2.2

/-- Model of JavaScript `parseFloat` on the strings this engine produces:
an optional leading `'-'`, integer digits, an optional `'.'` with
fractional digits; trailing junk is ignored.  (JS returns `NaN` when no
digits are present at all; such strings never reach `parseFloat` here, and
the model returns `0` for them.  The exponent notation of `parseFloat` is
not modelled, and the `/` branch parses the exact fallback notation of
`numToStr`.) -/
def strToNum (s : List Char) : ℚ :=
  if s.head? = some '-' then - strToNumNN s.tail else strToNumNN s

/-- Fractional decimal digits of `f` (with `0 ≤ f < 1` at every call),
or `none` if the expansion does not terminate within `fuel` digits. -/
def fracDigits : ℚ → Nat → Option (List Char)
  | f, 0 => if f = 0 then some [] else none
  | f, fuel + 1 =>
    if f = 0 then some []
    else
      let d := (f * 10).num / ((f * 10).den : Int)
      match fracDigits (f * 10 - (d : ℚ)) fuel with
      | some ds => some (digitChar d.toNat :: ds)
      | none => none

/-- Decimal notation of a nonnegative rational: integer part, and the
fractional digits when the expansion terminates (`q.den` is always enough
fuel for a terminating expansion). -/
def decPrintNN (q : ℚ) : List Char :=
  let i := (q.num / (q.den : Int)).toNat
  match fracDigits (q - (i : ℚ)) q.den with
  | some [] => natToDigitChars i
  | some ds => natToDigitChars i ++ '.' :: ds
  | none => natToDigitChars i

/-- Exact `num/den` fallback notation for rationals whose decimal
expansion does not terminate (unreachable for IEEE-754 doubles). -/
def fracForm (q : ℚ) : List Char :=
  (if q < 0 then ['-'] else []) ++ natToDigitChars q.num.natAbs ++ '/' :: natToDigitChars q.den

/-- Model of `Number.prototype.toString` (radix 10): sign and exact
decimal notation.  JavaScript guarantees `parseFloat(x.toString()) === x`;
the model mirrors that by falling back to the exact `num/den` notation
whenever the decimal candidate would not parse back to `q`. -/
def numToStr (q : ℚ) : List Char :=
  let cand := if q < 0 then '-' :: decPrintNN (-q) else decPrintNN q
  if strToNum cand = q then cand else fracForm q

/-- Digit-prefix parse, `none` when no digits were consumed. -/
def parseNatOpt (s : List Char) : Option Nat :=
  let p := parseDigits s
  if p.2.1 = 0 then none else some p.1

/-- Model of JavaScript `parseInt(s, 10)`: optional `'-'` sign, then a
digit prefix; `NaN` (here `none`) when no digits are present. -/
def parseIntM (s : List Char) : Option Int :=
  if s.head? = some '-' then (parseNatOpt s.tail).map (fun n => -(n : Int))
  else (parseNatOpt s).map (fun n => (n : Int))

/-- Model of `toString` on the result of `parseInt`: decimal numeral, or
the string `"NaN"` for `NaN`. -/
def intToString : Option Int → List Char
  | none => ['N', 'a', 'N']
  | some n => if n < 0 then '-' :: natToDigitChars n.natAbs else natToDigitChars n.toNat

/-- Display formatting from `updateDisplay` (script.js line 23): if the
input contains no decimal point it is re-parsed with `parseInt` and
re-stringified, otherwise it is shown unchanged. -/
def formatDisplay (s : List Char) : List Char :=
  if '.' ∈ s then s else intToString (parseIntM s)

theorem head?_natToDigitChars_isDigit (n : Nat) (rest : List Char) (c : Char)
    (h : (natToDigitChars n ++ rest).head? = some c) : c.isDigit = true := by
  obtain ⟨d, t, he⟩ := List.exists_cons_of_ne_nil
    (show natToDigitChars n ≠ [] by
      simp [natToDigitChars, natToDigits_ne_nil n])
  rw [he] at h
  simp only [List.cons_append, List.head?_cons, Option.some.injEq] at h
  subst h
  exact mem_natToDigitChars_isDigit n d (by rw [he]; simp)

theorem parseDigits_natToDigitChars (n : Nat) (rest : List Char)
    (hr : headIsDigit rest = false) :
    parseDigits (natToDigitChars n ++ rest) = (n, (natToDigits n).length, rest) := by
  rw [natToDigitChars, parseDigits_append _ _ (natToDigits_lt10 n) hr, digitsVal_natToDigits]

theorem afterInt_slash (v : ℚ) (t : List Char) : afterInt v ('/' :: t) = afterFrac v ('/' :: t) :=
  rfl

theorem afterInt_nil (v : ℚ) : afterInt v [] = v := rfl

theorem afterFrac_slash (v : ℚ) (t : List Char) :
    afterFrac v ('/' :: t) = v / ((parseDigits t).1 : ℚ) := rfl

theorem strToNumNN_natToDigitChars (n : Nat) : strToNumNN (natToDigitChars n) = (n : ℚ) := by
  have h := parseDigits_natToDigitChars n [] (by rfl)
  rw [List.append_nil] at h
  rw [strToNumNN, h, afterInt_nil]

theorem strToNum_not_minus (s : List Char) (h : s.head? ≠ some '-') :
    strToNum s = strToNumNN s := by
  rw [strToNum, if_neg h]

theorem strToNum_natToDigitChars (n : Nat) : strToNum (natToDigitChars n) = (n : ℚ) := by
  rw [strToNum_not_minus, strToNumNN_natToDigitChars]
  intro h
  have := head?_natToDigitChars_isDigit n [] '-' (by rw [List.append_nil]; exact h)
  exact absurd this (by decide)

theorem strToNumNN_fracPair (a b : Nat) :
    strToNumNN (natToDigitChars a ++ '/' :: natToDigitChars b) = (a : ℚ) / (b : ℚ) := by
  have h1 := parseDigits_natToDigitChars a ('/' :: natToDigitChars b) (by rfl)
  have h2 := parseDigits_natToDigitChars b [] (by rfl)
  rw [List.append_nil] at h2
  rw [strToNumNN, h1, afterInt_slash, afterFrac_slash, h2]

theorem strToNum_minus_cons (t : List Char) : strToNum ('-' :: t) = - strToNumNN t := rfl

theorem strToNum_fracForm (q : ℚ) : strToNum (fracForm q) = q := by
  by_cases hq : q < 0
  · have hnum : q.num < 0 := by
      by_contra hn
      exact absurd (Rat.num_nonneg.mp (by omega)) (not_le.mpr hq)
    have key : fracForm q
        = '-' :: (natToDigitChars q.num.natAbs ++ '/' :: natToDigitChars q.den) := by
      simp only [fracForm, if_pos hq, List.singleton_append, List.cons_append, List.nil_append]
    rw [key, strToNum_minus_cons, strToNumNN_fracPair]
    have habs : ((q.num.natAbs : Nat) : ℚ) = -(q.num : ℚ) := by
      rw [Int.cast_natAbs, abs_of_neg hnum, Int.cast_neg]
    rw [habs, neg_div, neg_neg]
    exact Rat.num_div_den q
  · have hnum : 0 ≤ q.num := Rat.num_nonneg.mpr (not_lt.mp hq)
    have key : fracForm q = natToDigitChars q.num.natAbs ++ '/' :: natToDigitChars q.den := by
      simp only [fracForm, if_neg hq, List.nil_append]
    rw [key, strToNum_not_minus]
    · rw [strToNumNN_fracPair]
      have habs : ((q.num.natAbs : Nat) : ℚ) = (q.num : ℚ) := by
        rw [Int.cast_natAbs, abs_of_nonneg hnum]
      rw [habs]
      exact Rat.num_div_den q
    · intro h
      have := head?_natToDigitChars_isDigit q.num.natAbs ('/' :: natToDigitChars q.den) '-' h
      exact absurd this (by decide)

/-- The round-trip guarantee of the string/number conversions: parsing
the printed form of any value recovers the value exactly (as JavaScript
guarantees for `parseFloat` of `Number.prototype.toString`). -/
theorem strToNum_numToStr (q : ℚ) : strToNum (numToStr q) = q := by
  by_cases h : strToNum (if q < 0 then '-' :: decPrintNN (-q) else decPrintNN q) = q
  · simp only [numToStr]
    rw [if_pos h]
    exact h
  · simp only [numToStr]
    rw [if_neg h]
    exact strToNum_fracForm q

theorem parseNatOpt_natToDigitChars (n : Nat) : parseNatOpt (natToDigitChars n) = some n := by
  have h := parseDigits_natToDigitChars n [] (by rfl)
  rw [List.append_nil] at h
  rw [parseNatOpt, h]
  have : (natToDigits n).length ≠ 0 := by
    simp [List.length_eq_zero, natToDigits_ne_nil n]
  simp [this]

theorem parseIntM_minus_cons (t : List Char) :
    parseIntM ('-' :: t) = (parseNatOpt t).map (fun n => -(n : Int)) := rfl

theorem parseIntM_not_minus (s : List Char) (h : s.head? ≠ some '-') :
    parseIntM s = (parseNatOpt s).map (fun n => (n : Int)) := by
  rw [parseIntM, if_neg h]

theorem parseIntM_intToString (x : Option Int) : parseIntM (intToString x) = x := by
  match x with
  | none => rfl
  | some n =>
    by_cases hn : n < 0
    · rw [intToString, if_pos hn, parseIntM_minus_cons, parseNatOpt_natToDigitChars]
      calc (some n.natAbs).map (fun m => -(m : Int)) = some (-(n.natAbs : Int)) := rfl
      _ = some n := congrArg some (by omega)
    · rw [intToString, if_neg hn, parseIntM_not_minus, parseNatOpt_natToDigitChars]
      · calc (some n.toNat).map (fun m => (m : Int)) = some ((n.toNat : Int)) := rfl
        _ = some n := congrArg some (by omega)
      · intro h
        have := head?_natToDigitChars_isDigit n.toNat [] '-' (by rw [List.append_nil]; exact h)
        exact absurd this (by decide)

theorem dot_not_mem_intToString (x : Option Int) : '.' ∉ intToString x := by
  match x with
  | none => decide
  | some n =>
    rw [intToString]
    by_cases hn : n < 0
    · rw [if_pos hn]
      intro h
      rcases List.mem_cons.mp h with h | h
      · exact absurd h (by decide)
      · have := mem_natToDigitChars_isDigit _ _ h
        exact absurd this (by decide)
    · rw [if_neg hn]
      intro h
      have := mem_natToDigitChars_isDigit _ _ h
      exact absurd this (by decide)

/-- The four operator symbols `"+" "-" "*" "/"` the UI and keyboard
handlers pass to `setOperator` (the `default` arm of the `switch` in
`calculateResult` is unreachable for these). -/
inductive Op
  | plus
  | minus
  | times
  | div
deriving DecidableEq

/-- The `switch (this.operator)` table of `calculateResult`
(script.js lines 97-113), including the division-by-zero guard. -/
def applyOp : Op → ℚ → ℚ → ℚ
  | .plus, a, b => a + b
  | .minus, a, b => a - b
  | .times, a, b => a * b
  | .div, a, b => if b = 0 then 0 else a / b

/-- The mutable state of the `Calculator` class: `currentInput` (string),
`previousValue` (number or null), `operator` (operator or null), and the
text content of the display element. -/
structure CalcState where
  currentInput : List Char
  previousValue : Option ℚ
  operator : Option Op
  display : List Char
deriving DecidableEq

/-- `updateDisplay()` (script.js line 23). -/
def updateDisplay (st : CalcState) : CalcState :=
  { st with display := formatDisplay st.currentInput }

/-- `inputDigit(digit)` (script.js line 34): replace a bare `"0"`,
otherwise append. -/
def inputDigit (d : Char) (st : CalcState) : CalcState :=
  updateDisplay { st with
    currentInput := if st.currentInput = ['0'] then [d] else st.currentInput ++ [d] }

/-- `inputDecimal()` (script.js line 45): append `'.'` only when absent
(note the display is only refreshed in that case). -/
def inputDecimal (st : CalcState) : CalcState :=
  if '.' ∈ st.currentInput then st
  else updateDisplay { st with currentInput := st.currentInput ++ ['.'] }

/-- `toggleSign()` (script.js line 53): strip a leading `'-'`, else
prepend one unless the input is exactly `"0"`. -/
def toggleSign (st : CalcState) : CalcState :=
  updateDisplay { st with
    currentInput :=
      if st.currentInput.head? = some '-' then st.currentInput.tail
      else if st.currentInput = ['0'] then st.currentInput
      else '-' :: st.currentInput }

/-- `clearEntry()` (script.js line 63). -/
def clearEntry (st : CalcState) : CalcState :=
  updateDisplay { st with currentInput := ['0'] }

/-- `allClear()` (script.js line 69). -/
def allClear (st : CalcState) : CalcState :=
  updateDisplay { st with currentInput := ['0'], previousValue := none, operator := none }

/-- `calculateResult()` (script.js line 91): no-op unless both an
operator and a previous value are pending; otherwise apply the pending
operation to `parseFloat(currentInput)`, store the result's string form,
and clear the pending pair. -/
def calculateResult (st : CalcState) : CalcState :=
  match st.operator, st.previousValue with
  | some op, some pv =>
    updateDisplay { st with
      currentInput := numToStr (applyOp op pv (strToNum st.currentInput)),
      previousValue := none,
      operator := none }
  | _, _ => st

/-- `setOperator(op)` (script.js line 77): resolve any pending operation
first, then store the operator, snapshot `parseFloat(currentInput)` as
`previousValue`, and reset the input to `"0"`. -/
def setOperator (op : Op) (st : CalcState) : CalcState :=
  let st1 := if st.operator.isSome && st.previousValue.isSome then calculateResult st else st
  updateDisplay { st1 with
    operator := some op,
    previousValue := some (strToNum st1.currentInput),
    currentInput := ['0'] }

/-- `calculatePercentage()` (script.js line 122): divide the current
input by 100 in place. -/
def calculatePercentage (st : CalcState) : CalcState :=
  updateDisplay { st with currentInput := numToStr (strToNum st.currentInput / 100) }

/-- The state built by the constructor (script.js line 11):
`currentInput = "0"`, both pending fields null, then `updateDisplay()`. -/
def initState : CalcState :=
  updateDisplay { currentInput := ['0'], previousValue := none, operator := none, display := [] }

/-- One discrete user action, as dispatched by the button and keyboard
handlers (script.js lines 140-221). -/
inductive Action
  | digit (d : Char)
  | decimal
  | sign
  | clear
  | reset
  | oper (o : Op)
  | equals
  | percent

/-- Dispatch one action to the corresponding engine method. -/
def step (st : CalcState) : Action → CalcState
  | .digit d => inputDigit d st
  | .decimal => inputDecimal st
  | .sign => toggleSign st
  | .clear => clearEntry st
  | .reset => allClear st
  | .oper o => setOperator o st
  | .equals => calculateResult st
  | .percent => calculatePercentage st

/-- Run a list of actions from a given state. -/
def runFrom (st : CalcState) (acts : List Action) : CalcState :=
  acts.foldl step st

/-- Run a list of actions from the freshly constructed calculator. -/
def run (acts : List Action) : CalcState :=
  runFrom initState acts

theorem runFrom_append (st : CalcState) (l1 l2 : List Action) :
    runFrom st (l1 ++ l2) = runFrom (runFrom st l1) l2 :=
  List.foldl_append _ _ _ _

theorem runFrom_cons (st : CalcState) (a : Action) (l : List Action) :
    runFrom st (a :: l) = runFrom (step st a) l := rfl

@[simp] theorem updateDisplay_currentInput (st : CalcState) :
    (updateDisplay st).currentInput = st.currentInput := rfl

@[simp] theorem updateDisplay_previousValue (st : CalcState) :
    (updateDisplay st).previousValue = st.previousValue := rfl

@[simp] theorem updateDisplay_operator (st : CalcState) :
    (updateDisplay st).operator = st.operator := rfl

@[simp] theorem updateDisplay_display (st : CalcState) :
    (updateDisplay st).display = formatDisplay st.currentInput := rfl

@[simp] theorem inputDigit_currentInput (d : Char) (st : CalcState) :
    (inputDigit d st).currentInput
      = if st.currentInput = ['0'] then [d] else st.currentInput ++ [d] := rfl

@[simp] theorem inputDigit_previousValue (d : Char) (st : CalcState) :
    (inputDigit d st).previousValue = st.previousValue := rfl

@[simp] theorem inputDigit_operator (d : Char) (st : CalcState) :
    (inputDigit d st).operator = st.operator := rfl

theorem inputDigit_display (d : Char) (st : CalcState) :
    (inputDigit d st).display = formatDisplay ((inputDigit d st).currentInput) := rfl

@[simp] theorem setOperator_currentInput (op : Op) (st : CalcState) :
    (setOperator op st).currentInput = ['0'] := rfl

@[simp] theorem setOperator_operator (op : Op) (st : CalcState) :
    (setOperator op st).operator = some op := rfl

theorem setOperator_previousValue (op : Op) (st : CalcState) :
    (setOperator op st).previousValue
      = some (strToNum (if st.operator.isSome && st.previousValue.isSome then
          calculateResult st else st).currentInput) := rfl

@[simp] theorem clearEntry_previousValue (st : CalcState) :
    (clearEntry st).previousValue = st.previousValue := rfl

@[simp] theorem clearEntry_operator (st : CalcState) :
    (clearEntry st).operator = st.operator := rfl

@[simp] theorem clearEntry_currentInput (st : CalcState) :
    (clearEntry st).currentInput = ['0'] := rfl

@[simp] theorem toggleSign_previousValue (st : CalcState) :
    (toggleSign st).previousValue = st.previousValue := rfl

@[simp] theorem toggleSign_operator (st : CalcState) :
    (toggleSign st).operator = st.operator := rfl

@[simp] theorem calculatePercentage_previousValue (st : CalcState) :
    (calculatePercentage st).previousValue = st.previousValue := rfl

@[simp] theorem calculatePercentage_operator (st : CalcState) :
    (calculatePercentage st).operator = st.operator := rfl

@[simp] theorem allClear_previousValue (st : CalcState) :
    (allClear st).previousValue = none := rfl

@[simp] theorem allClear_operator (st : CalcState) :
    (allClear st).operator = none := rfl

@[simp] theorem initState_currentInput : initState.currentInput = ['0'] := rfl

@[simp] theorem initState_previousValue : initState.previousValue = none := rfl

@[simp] theorem initState_operator : initState.operator = none := rfl

theorem inputDecimal_previousValue (st : CalcState) :
    (inputDecimal st).previousValue = st.previousValue := by
  rw [inputDecimal]
  split <;> rfl

theorem inputDecimal_operator (st : CalcState) :
    (inputDecimal st).operator = st.operator := by
  rw [inputDecimal]
  split <;> rfl

theorem calculateResult_of_some {st : CalcState} {op : Op} {pv : ℚ}
    (h1 : st.operator = some op) (h2 : st.previousValue = some pv) :
    calculateResult st
      = updateDisplay { st with
          currentInput := numToStr (applyOp op pv (strToNum st.currentInput)),
          previousValue := none,
          operator := none } := by
  rw [calculateResult, h1, h2]

theorem calculateResult_operator_none {st : CalcState} (h : st.operator = none) :
    calculateResult st = st := by
  rw [calculateResult, h]

theorem calculateResult_previousValue_none {st : CalcState} (h : st.previousValue = none) :
    calculateResult st = st := by
  rw [calculateResult, h]
  rcases st.operator with _ | op <;> rfl

theorem strToNum_zero : strToNum ['0'] = 0 := by
  have h := strToNum_natToDigitChars 0
  have h2 : natToDigitChars 0 = ['0'] := rfl
  rw [h2] at h
  exact h.trans (Nat.cast_zero)

theorem fracDigits_zero (fuel : Nat) : fracDigits 0 fuel = some [] := by
  cases fuel with
  | zero => rw [fracDigits, if_pos rfl]
  | succ fuel => rw [fracDigits, if_pos rfl]

theorem decPrintNN_natCast (n : Nat) : decPrintNN ((n : Nat) : ℚ) = natToDigitChars n := by
  have hi : ((((n : Nat) : ℚ)).num / ((((n : Nat) : ℚ)).den : Int)).toNat = n := by
    rw [Rat.num_natCast, Rat.den_natCast]
    simp
  simp only [decPrintNN, hi]
  have hf : ((n : Nat) : ℚ) - ((n : Nat) : ℚ) = 0 := by simp
  rw [hf, Rat.den_natCast, fracDigits_zero]

theorem numToStr_natCast (n : Nat) : numToStr ((n : Nat) : ℚ) = natToDigitChars n := by
  have hneg : ¬ (((n : Nat) : ℚ) < 0) := not_lt.mpr (Nat.cast_nonneg n)
  have hguard :
      strToNum (if ((n : Nat) : ℚ) < 0 then '-' :: decPrintNN (-((n : Nat) : ℚ))
        else decPrintNN ((n : Nat) : ℚ)) = ((n : Nat) : ℚ) := by
    rw [if_neg hneg, decPrintNN_natCast, strToNum_natToDigitChars]
  simp only [numToStr]
  rw [if_pos hguard, if_neg hneg, decPrintNN_natCast]

theorem numToStr_zero : numToStr 0 = ['0'] := by
  have h := numToStr_natCast 0
  rw [Nat.cast_zero] at h
  exact h

theorem dot_not_mem_map_digitChar (ds : List Nat) (h : ∀ d ∈ ds, d < 10) :
    '.' ∉ ds.map digitChar := by
  intro hmem
  obtain ⟨d, hd, heq⟩ := List.mem_map.mp hmem
  exact digitChar_ne_dot (h d hd) heq

theorem head?_map_digitChar_ne_minus (l : List Nat) (h : ∀ d ∈ l, d < 10) :
    (l.map digitChar).head? ≠ some '-' := by
  cases l with
  | nil => simp
  | cons e t =>
    simp only [List.map_cons, List.head?_cons]
    intro heq
    exact digitChar_ne_minus (h e (by simp)) (Option.some.inj heq)

theorem strToNum_mapDigitChar (l : List Nat) (h : ∀ d ∈ l, d < 10) :
    strToNum (l.map digitChar) = (digitsVal l : ℚ) := by
  rw [strToNum_not_minus _ (head?_map_digitChar_ne_minus l h)]
  have hp := parseDigits_append l [] h rfl
  rw [List.append_nil] at hp
  rw [strToNumNN, hp]
  exact afterInt_nil _

theorem formatDisplay_mapDigitChar (ds : List Nat) (h : ∀ d ∈ ds, d < 10) (hne : ds ≠ []) :
    formatDisplay (ds.map digitChar) = natToDigitChars (digitsVal ds) := by
  rw [formatDisplay, if_neg (dot_not_mem_map_digitChar ds h)]
  rw [parseIntM_not_minus _ (head?_map_digitChar_ne_minus ds h)]
  have hp := parseDigits_append ds [] h rfl
  rw [List.append_nil] at hp
  rw [parseNatOpt, hp]
  have hlen : ds.length ≠ 0 := by
    simp [List.length_eq_zero, hne]
  rw [if_neg hlen]
  calc intToString ((some (digitsVal ds)).map (fun m => (m : Int)))
      = intToString (some ((digitsVal ds : Nat) : Int)) := rfl
    _ = natToDigitChars (digitsVal ds) := by
        rw [intToString, if_neg (by omega : ¬ (((digitsVal ds : Nat) : Int) < 0))]
        congr 1

/-- The string of digits that `inputDigit` accumulates when entering the
digit list `ds` starting from `"0"`: leading zeros are swallowed by the
replace-on-`"0"` rule. -/
def canon (ds : List Nat) : List Char :=
  match ds.dropWhile (fun d => d == 0) with
  | [] => ['0']
  | l => l.map digitChar

theorem canon_nil : canon [] = ['0'] := rfl

theorem canon_cons_zero (t : List Nat) : canon (0 :: t) = canon t := by
  rw [canon, canon, List.dropWhile_cons]
  simp

theorem canon_cons_ne (d : Nat) (t : List Nat) (hd : d ≠ 0) :
    canon (d :: t) = (d :: t).map digitChar := by
  have hb : (d == 0) = false := by simp [hd]
  rw [canon, List.dropWhile_cons, hb]
  simp

theorem digitsVal_dropWhile_zero (ds : List Nat) :
    digitsVal (ds.dropWhile (fun d => d == 0)) = digitsVal ds := by
  induction ds with
  | nil => rfl
  | cons d t ih =>
    rw [List.dropWhile_cons]
    by_cases hd : d = 0
    · subst hd
      simp only [beq_self_eq_true, if_true, ih, digitsVal]
      omega
    · have hb : (d == 0) = false := by simp [hd]
      rw [hb]
      simp

theorem strToNum_canon (ds : List Nat) (h : ∀ d ∈ ds, d < 10) :
    strToNum (canon ds) = (digitsVal ds : ℚ) := by
  rcases hdp : ds.dropWhile (fun d => d == 0) with _ | ⟨e, t⟩
  · have hc : canon ds = ['0'] := by rw [canon, hdp]
    have hv : digitsVal ds = 0 := by rw [← digitsVal_dropWhile_zero, hdp]; rfl
    rw [hc, hv, strToNum_zero, Nat.cast_zero]
  · have hc : canon ds = (e :: t).map digitChar := by rw [canon, hdp]
    have hsub : ∀ d ∈ e :: t, d < 10 := by
      intro d hd
      exact h d ((List.dropWhile_sublist _).mem (hdp ▸ hd))
    rw [hc, strToNum_mapDigitChar _ hsub, ← hdp, digitsVal_dropWhile_zero]

/-- The action list that types the digits `ds` in order. -/
def enterDigits (ds : List Nat) : List Action :=
  ds.map (fun d => Action.digit (digitChar d))

theorem enterDigits_cons (d : Nat) (t : List Nat) :
    enterDigits (d :: t) = Action.digit (digitChar d) :: enterDigits t := rfl

theorem runFrom_enterDigits_previousValue (ds : List Nat) :
    ∀ st : CalcState, (runFrom st (enterDigits ds)).previousValue = st.previousValue := by
  induction ds with
  | nil => intro st; rfl
  | cons d t ih =>
    intro st
    rw [enterDigits_cons, runFrom_cons]
    rw [ih]
    rfl

theorem runFrom_enterDigits_operator (ds : List Nat) :
    ∀ st : CalcState, (runFrom st (enterDigits ds)).operator = st.operator := by
  induction ds with
  | nil => intro st; rfl
  | cons d t ih =>
    intro st
    rw [enterDigits_cons, runFrom_cons]
    rw [ih]
    rfl

theorem runFrom_enterDigits_ci_ne (ds : List Nat) :
    ∀ st : CalcState, st.currentInput ≠ ['0'] → st.currentInput ≠ [] →
      (runFrom st (enterDigits ds)).currentInput = st.currentInput ++ ds.map digitChar := by
  induction ds with
  | nil => intro st _ _; simp [enterDigits, runFrom]
  | cons d t ih =>
    intro st h0 hn
    rw [enterDigits_cons, runFrom_cons]
    have hstep : step st (Action.digit (digitChar d)) = inputDigit (digitChar d) st := rfl
    have hci : (inputDigit (digitChar d) st).currentInput = st.currentInput ++ [digitChar d] := by
      simp [h0]
    have h0' : (inputDigit (digitChar d) st).currentInput ≠ ['0'] := by
      rw [hci]
      intro heq
      have hlen := congrArg List.length heq
      simp at hlen
      exact hn hlen
    have hn' : (inputDigit (digitChar d) st).currentInput ≠ [] := by
      rw [hci]
      simp
    rw [hstep, ih _ h0' hn', hci, List.append_assoc]
    rfl

theorem runFrom_enterDigits_ci_zero (ds : List Nat) :
    ∀ st : CalcState, (∀ d ∈ ds, d < 10) → st.currentInput = ['0'] →
      (runFrom st (enterDigits ds)).currentInput = canon ds := by
  induction ds with
  | nil =>
    intro st _ h0
    rw [canon_nil, ← h0]
    rfl
  | cons d t ih =>
    intro st h h0
    rw [enterDigits_cons, runFrom_cons]
    have hstep : step st (Action.digit (digitChar d)) = inputDigit (digitChar d) st := rfl
    have hci : (inputDigit (digitChar d) st).currentInput = [digitChar d] := by
      simp [h0]
    by_cases hd0 : d = 0
    · subst hd0
      rw [hstep, ih _ (fun x hx => h x (by simp [hx])) hci, canon_cons_zero]
    · have hd10 : d < 10 := h d (by simp)
      have h0' : (inputDigit (digitChar d) st).currentInput ≠ ['0'] := by
        rw [hci]
        intro heq
        exact digitChar_ne_zero hd10 hd0 (List.cons_eq_cons.mp heq).1
      have hn' : (inputDigit (digitChar d) st).currentInput ≠ [] := by
        rw [hci]
        simp
      rw [hstep, runFrom_enterDigits_ci_ne t _ h0' hn', hci, canon_cons_ne d t hd0]
      rfl

theorem inputDigit_display_coherent (d : Char) (st : CalcState) :
    (inputDigit d st).display = formatDisplay ((inputDigit d st).currentInput) := rfl

theorem runFrom_enterDigits_display (ds : List Nat) (st : CalcState) (h : ds ≠ []) :
    (runFrom st (enterDigits ds)).display
      = formatDisplay ((runFrom st (enterDigits ds)).currentInput) := by
  induction ds using List.reverseRecOn with
  | nil => exact absurd rfl h
  | append_singleton l x _ =>
    have hsplit : enterDigits (l ++ [x]) = enterDigits l ++ enterDigits [x] := by
      simp [enterDigits]
    rw [hsplit, runFrom_append]
    exact inputDigit_display_coherent _ _

/-- C9: when no operator is pending, `calculateResult()` is a no-op that
changes none of the fields; in particular pressing equals twice performs
the operation once, the second press changing nothing because the first
cleared `operator`. -/
theorem C9_equals_noop :
    (∀ st : CalcState, st.operator = none → calculateResult st = st) ∧
    (∀ st : CalcState, calculateResult (calculateResult st) = calculateResult st) := by
  constructor
  · intro st h
    exact calculateResult_operator_none h
  · intro st
    rcases hop : st.operator with _ | op
    · rw [calculateResult_operator_none hop, calculateResult_operator_none hop]
    · rcases hpv : st.previousValue with _ | pv
      · rw [calculateResult_previousValue_none hpv, calculateResult_previousValue_none hpv]
      · rw [calculateResult_of_some hop hpv]
        exact calculateResult_operator_none rfl

theorem C9_witness :
    calculateResult
        { currentInput := ['5'], previousValue := none, operator := none, display := ['5'] }
      = { currentInput := ['5'], previousValue := none, operator := none, display := ['5'] } :=
  C9_equals_noop.1 _ rfl

/-- C8: `inputDigit`, `inputDecimal`, `toggleSign`, `clearEntry` and
`calculatePercentage` leave `previousValue` and `operator` unchanged in
every state. -/
theorem C8_frame (st : CalcState) (d : Char) :
    ((inputDigit d st).previousValue = st.previousValue ∧
      (inputDigit d st).operator = st.operator) ∧
    ((inputDecimal st).previousValue = st.previousValue ∧
      (inputDecimal st).operator = st.operator) ∧
    ((toggleSign st).previousValue = st.previousValue ∧
      (toggleSign st).operator = st.operator) ∧
    ((clearEntry st).previousValue = st.previousValue ∧
      (clearEntry st).operator = st.operator) ∧
    ((calculatePercentage st).previousValue = st.previousValue ∧
      (calculatePercentage st).operator = st.operator) :=
  ⟨⟨rfl, rfl⟩, ⟨inputDecimal_previousValue st, inputDecimal_operator st⟩,
    ⟨rfl, rfl⟩, ⟨rfl, rfl⟩, ⟨rfl, rfl⟩⟩

theorem C8_witness :
    (calculatePercentage
        { currentInput := ['7'], previousValue := some 1, operator := some Op.plus,
          display := ['7'] }).previousValue = some 1 ∧
    (calculatePercentage
        { currentInput := ['7'], previousValue := some 1, operator := some Op.plus,
          display := ['7'] }).operator = some Op.plus :=
  (C8_frame
    { currentInput := ['7'], previousValue := some 1, operator := some Op.plus,
      display := ['7'] } '3').2.2.2.2

theorem step_pending_tied (st : CalcState) (a : Action)
    (h : st.previousValue.isSome = st.operator.isSome) :
    (step st a).previousValue.isSome = (step st a).operator.isSome := by
  cases a with
  | digit d => simpa using h
  | decimal =>
    show (inputDecimal st).previousValue.isSome = (inputDecimal st).operator.isSome
    rw [inputDecimal_previousValue, inputDecimal_operator]
    exact h
  | sign => simpa using h
  | clear => simpa using h
  | reset => simp [step]
  | oper o =>
    show (setOperator o st).previousValue.isSome = (setOperator o st).operator.isSome
    rw [setOperator_previousValue, setOperator_operator]
    rfl
  | equals =>
    show (calculateResult st).previousValue.isSome = (calculateResult st).operator.isSome
    rcases hop : st.operator with _ | op
    · rw [calculateResult_operator_none hop]
      exact h
    · rcases hpv : st.previousValue with _ | pv
      · rw [calculateResult_previousValue_none hpv]
        exact h
      · rw [calculateResult_of_some hop hpv]
        rfl
  | percent => simpa using h

theorem runFrom_pending_tied (acts : List Action) :
    ∀ st : CalcState, st.previousValue.isSome = st.operator.isSome →
      (runFrom st acts).previousValue.isSome = (runFrom st acts).operator.isSome := by
  induction acts with
  | nil => intro st h; exact h
  | cons a l ih =>
    intro st h
    rw [runFrom_cons]
    exact ih _ (step_pending_tied st a h)

/-- C4: in every state reachable from the initial state, `previousValue`
is non-null if and only if `operator` is non-null — the pending pair is
set and cleared together. -/
theorem C4_pending_pair (acts : List Action) :
    ((run acts).previousValue ≠ none ↔ (run acts).operator ≠ none) := by
  have h : (run acts).previousValue.isSome = (run acts).operator.isSome :=
    runFrom_pending_tied acts initState rfl
  rw [Option.ne_none_iff_isSome, Option.ne_none_iff_isSome, h]

theorem C4_witness :
    ((run [Action.oper Op.plus]).previousValue ≠ none
      ↔ (run [Action.oper Op.plus]).operator ≠ none) :=
  C4_pending_pair [Action.oper Op.plus]

/-- C2: with a pending `"/"` and any `previousValue`, if the numeric
value of `currentInput` is `0` then `calculateResult()` stores exactly
the string `"0"` — the guard makes division by zero total, with no
exception and no infinity or NaN (the model has no failure channel, so
totality is by construction). -/
theorem C2_div_by_zero (st : CalcState) (p : ℚ)
    (h1 : st.operator = some Op.div) (h2 : st.previousValue = some p)
    (h3 : strToNum st.currentInput = 0) :
    (calculateResult st).currentInput = ['0'] := by
  rw [calculateResult_of_some h1 h2]
  show numToStr (applyOp Op.div p (strToNum st.currentInput)) = ['0']
  rw [h3]
  have hzero : applyOp Op.div p 0 = 0 := by
    show (if (0 : ℚ) = 0 then 0 else p / 0) = 0
    exact if_pos rfl
  rw [hzero, numToStr_zero]

theorem C2_witness :
    (calculateResult
        { currentInput := ['0'], previousValue := some 3, operator := some Op.div,
          display := ['0'] }).currentInput = ['0'] :=
  C2_div_by_zero _ 3 rfl rfl strToNum_zero

/-- C7: `inputDecimal()` appends exactly one `'.'` when none is present,
is a strict no-op when one is present, and hence two consecutive calls
leave exactly one `'.'` in `currentInput`. -/
theorem C7_decimal_idempotent :
    (∀ st : CalcState, '.' ∉ st.currentInput →
      (inputDecimal st).currentInput = st.currentInput ++ ['.']) ∧
    (∀ st : CalcState, '.' ∈ st.currentInput → inputDecimal st = st) ∧
    (∀ st : CalcState, '.' ∉ st.currentInput →
      ((inputDecimal (inputDecimal st)).currentInput.count '.') = 1) := by
  have h1 : ∀ st : CalcState, '.' ∉ st.currentInput →
      (inputDecimal st).currentInput = st.currentInput ++ ['.'] := by
    intro st h
    rw [inputDecimal, if_neg h]
    rfl
  have h2 : ∀ st : CalcState, '.' ∈ st.currentInput → inputDecimal st = st := by
    intro st h
    rw [inputDecimal, if_pos h]
  refine ⟨h1, h2, ?_⟩
  intro st h
  have hmem : '.' ∈ (inputDecimal st).currentInput := by
    rw [h1 st h]
    simp
  rw [h2 _ hmem, h1 st h, List.count_append]
  have hz : st.currentInput.count '.' = 0 := List.count_eq_zero.mpr h
  rw [hz]
  rfl

theorem C7_witness :
    (inputDecimal
        { currentInput := ['3'], previousValue := none, operator := none,
          display := ['3'] }).currentInput = ['3'] ++ ['.'] ∧
    ((inputDecimal (inputDecimal
        { currentInput := ['3'], previousValue := none, operator := none,
          display := ['3'] })).currentInput.count '.') = 1 :=
  ⟨C7_decimal_idempotent.1 _ (by decide), C7_decimal_idempotent.2.2 _ (by decide)⟩

/-- C5: the displayed string is a pure function of `currentInput`: with
no `'.'` it is the `parseInt` re-parse re-stringified (collapsing leading
zeros), with a `'.'` (including a trailing bare one) it is shown
unchanged, and the formatting function is idempotent. -/
theorem C5_display_contract :
    (∀ s : List Char, '.' ∉ s → formatDisplay s = intToString (parseIntM s)) ∧
    (∀ s : List Char, '.' ∈ s → formatDisplay s = s) ∧
    (∀ s : List Char, formatDisplay (formatDisplay s) = formatDisplay s) := by
  have h1 : ∀ s : List Char, '.' ∉ s → formatDisplay s = intToString (parseIntM s) := by
    intro s h
    rw [formatDisplay, if_neg h]
  have h2 : ∀ s : List Char, '.' ∈ s → formatDisplay s = s := by
    intro s h
    rw [formatDisplay, if_pos h]
  refine ⟨h1, h2, ?_⟩
  intro s
  by_cases h : '.' ∈ s
  · rw [h2 s h]
    exact h2 s h
  · rw [h1 s h, h1 _ (dot_not_mem_intToString _), parseIntM_intToString]

theorem C5_witness :
    formatDisplay ['0', '0', '7'] = ['7'] ∧
    formatDisplay ['3', '.'] = ['3', '.'] ∧
    formatDisplay (formatDisplay ['0', '0', '7']) = formatDisplay ['0', '0', '7'] :=
  ⟨(C5_display_contract.1 ['0', '0', '7'] (by decide)).trans (by decide),
    C5_display_contract.2.1 ['3', '.'] (by decide),
    C5_display_contract.2.2 ['0', '0', '7']⟩

/-- C6: entering digits `d :: t` (first digit nonzero) from the initial
state accumulates exactly that digit string in `currentInput`, the
display shows the canonical numeral of its value (no superfluous leading
zeros, and equal to the entered string), and the replace-vs-append
decision of `inputDigit` depends only on whether `currentInput = "0"`. -/
theorem C6_digit_entry (d : Nat) (t : List Nat) (hd0 : d ≠ 0) (h : ∀ x ∈ d :: t, x < 10) :
    (run (enterDigits (d :: t))).currentInput = (d :: t).map digitChar ∧
    (run (enterDigits (d :: t))).display = natToDigitChars (digitsVal (d :: t)) ∧
    natToDigitChars (digitsVal (d :: t)) = (d :: t).map digitChar ∧
    (∀ (st : CalcState) (c : Char),
      (inputDigit c st).currentInput
        = if st.currentInput = ['0'] then [c] else st.currentInput ++ [c]) := by
  have hci : (run (enterDigits (d :: t))).currentInput = (d :: t).map digitChar := by
    rw [run, runFrom_enterDigits_ci_zero _ _ h initState_currentInput, canon_cons_ne d t hd0]
  refine ⟨hci, ?_, ?_, fun st c => rfl⟩
  · have hd : (run (enterDigits (d :: t))).display
        = formatDisplay ((run (enterDigits (d :: t))).currentInput) :=
      runFrom_enterDigits_display _ initState (by simp)
    rw [hd, hci, formatDisplay_mapDigitChar _ h (by simp)]
  · rw [natToDigitChars, natToDigits_digitsVal d t hd0 h]

theorem C6_witness :
    (run (enterDigits [1, 2])).currentInput = [1, 2].map digitChar ∧
    (run (enterDigits [1, 2])).display = natToDigitChars (digitsVal [1, 2]) ∧
    [1, 2].map digitChar = ['1', '2'] :=
  ⟨(C6_digit_entry 1 [2] (by decide) (by decide)).1,
    (C6_digit_entry 1 [2] (by decide) (by decide)).2.1,
    by decide⟩

/-- C10: a second operator press while `currentInput` is still `"0"`
resolves the pending operation with right operand `0` before storing the
new operator: the new `previousValue` is `(previousValue op1 0)`, not a
mere replacement of the pending operator. -/
theorem C10_operator_chain_zero (st : CalcState) (op1 op2 : Op) (p : ℚ)
    (h1 : st.operator = some op1) (h2 : st.previousValue = some p)
    (h3 : st.currentInput = ['0']) :
    (setOperator op2 st).previousValue = some (applyOp op1 p 0) ∧
    (setOperator op2 st).operator = some op2 ∧
    (setOperator op2 st).currentInput = ['0'] := by
  refine ⟨?_, rfl, rfl⟩
  rw [setOperator_previousValue]
  have hcond : (st.operator.isSome && st.previousValue.isSome) = true := by
    rw [h1, h2]
    rfl
  rw [if_pos hcond]
  rw [calculateResult_of_some h1 h2]
  show some (strToNum (numToStr (applyOp op1 p (strToNum st.currentInput)))) = _
  rw [h3, strToNum_zero, strToNum_numToStr]

theorem C10_witness :
    (setOperator Op.plus
        { currentInput := ['0'], previousValue := some 5, operator := some Op.times,
          display := ['0'] }).previousValue = some (applyOp Op.times 5 0) ∧
    (setOperator Op.plus
        { currentInput := ['0'], previousValue := some 5, operator := some Op.times,
          display := ['0'] }).operator = some Op.plus ∧
    (setOperator Op.plus
        { currentInput := ['0'], previousValue := some 5, operator := some Op.times,
          display := ['0'] }).currentInput = ['0'] :=
  C10_operator_chain_zero _ Op.times Op.plus 5 rfl rfl rfl

/-- C1: for any operators `op1, op2` and digit-entered operands
`a, b, c`, the sequence enter `a`, `setOperator(op1)`, enter `b`,
`setOperator(op2)`, enter `c`, `calculateResult()` leaves `currentInput`
equal to the string form of `((a op1 b) op2 c)` evaluated eagerly
left-to-right (with the engine's division-by-zero guard): the second
`setOperator` first resolves the pending operation with `b` as right
operand and stores the intermediate result as `previousValue`. -/
theorem C1_chaining (op1 op2 : Op) (a b c : List Nat)
    (ha : ∀ d ∈ a, d < 10) (hb : ∀ d ∈ b, d < 10) (hc : ∀ d ∈ c, d < 10) :
    (run (enterDigits a ++ Action.oper op1 ::
        (enterDigits b ++ Action.oper op2 :: (enterDigits c ++ [Action.equals])))).currentInput
      = numToStr (applyOp op2 (applyOp op1 ((digitsVal a : ℚ)) ((digitsVal b : ℚ)))
          ((digitsVal c : ℚ))) := by
  rw [run, runFrom_append]
  set S1 := runFrom initState (enterDigits a) with hS1def
  have hS1ci : S1.currentInput = canon a :=
    runFrom_enterDigits_ci_zero a initState ha initState_currentInput
  have hS1op : S1.operator = none :=
    (runFrom_enterDigits_operator a initState).trans initState_operator
  rw [runFrom_cons, show step S1 (Action.oper op1) = setOperator op1 S1 from rfl]
  set S2 := setOperator op1 S1 with hS2def
  have hS2ci : S2.currentInput = ['0'] := rfl
  have hS2op : S2.operator = some op1 := rfl
  have hS2pv : S2.previousValue = some ((digitsVal a : ℚ)) := by
    rw [hS2def, setOperator_previousValue]
    have hcond : (S1.operator.isSome && S1.previousValue.isSome) = false := by
      rw [hS1op]
      rfl
    rw [hcond]
    simp only [Bool.false_eq_true, if_false]
    rw [hS1ci, strToNum_canon a ha]
  rw [runFrom_append]
  set S3 := runFrom S2 (enterDigits b) with hS3def
  have hS3ci : S3.currentInput = canon b := runFrom_enterDigits_ci_zero b S2 hb hS2ci
  have hS3op : S3.operator = some op1 := (runFrom_enterDigits_operator b S2).trans hS2op
  have hS3pv : S3.previousValue = some ((digitsVal a : ℚ)) :=
    (runFrom_enterDigits_previousValue b S2).trans hS2pv
  rw [runFrom_cons, show step S3 (Action.oper op2) = setOperator op2 S3 from rfl]
  set S4 := setOperator op2 S3 with hS4def
  have hS4ci : S4.currentInput = ['0'] := rfl
  have hS4op : S4.operator = some op2 := rfl
  have hS4pv : S4.previousValue
      = some (applyOp op1 ((digitsVal a : ℚ)) ((digitsVal b : ℚ))) := by
    rw [hS4def, setOperator_previousValue]
    have hcond : (S3.operator.isSome && S3.previousValue.isSome) = true := by
      rw [hS3op, hS3pv]
      rfl
    rw [if_pos hcond]
    rw [calculateResult_of_some hS3op hS3pv]
    show some (strToNum (numToStr
      (applyOp op1 ((digitsVal a : ℚ)) (strToNum S3.currentInput)))) = _
    rw [hS3ci, strToNum_canon b hb, strToNum_numToStr]
  rw [runFrom_append]
  set S5 := runFrom S4 (enterDigits c) with hS5def
  have hS5ci : S5.currentInput = canon c := runFrom_enterDigits_ci_zero c S4 hc hS4ci
  have hS5op : S5.operator = some op2 := (runFrom_enterDigits_operator c S4).trans hS4op
  have hS5pv : S5.previousValue
      = some (applyOp op1 ((digitsVal a : ℚ)) ((digitsVal b : ℚ))) :=
    (runFrom_enterDigits_previousValue c S4).trans hS4pv
  rw [show runFrom S5 [Action.equals] = calculateResult S5 from rfl]
  rw [calculateResult_of_some hS5op hS5pv]
  show numToStr (applyOp op2 (applyOp op1 ((digitsVal a : ℚ)) ((digitsVal b : ℚ)))
    (strToNum S5.currentInput)) = _
  rw [hS5ci, strToNum_canon c hc]

theorem C1_witness :
    (run (enterDigits [7] ++ Action.oper Op.plus ::
        (enterDigits [3] ++ Action.oper Op.plus :: (enterDigits [2] ++ [Action.equals])))).currentInput
      = numToStr (applyOp Op.plus (applyOp Op.plus ((digitsVal [7] : ℚ)) ((digitsVal [3] : ℚ)))
          ((digitsVal [2] : ℚ))) ∧
    numToStr (applyOp Op.plus (applyOp Op.plus ((digitsVal [7] : ℚ)) ((digitsVal [3] : ℚ)))
        ((digitsVal [2] : ℚ))) = ['1', '2'] := by
  refine ⟨C1_chaining Op.plus Op.plus [7] [3] [2] (by decide) (by decide) (by decide), ?_⟩
  have hval : applyOp Op.plus (applyOp Op.plus ((digitsVal [7] : ℚ)) ((digitsVal [3] : ℚ)))
      ((digitsVal [2] : ℚ)) = ((12 : Nat) : ℚ) := by
    show ((digitsVal [7] : ℚ)) + ((digitsVal [3] : ℚ)) + ((digitsVal [2] : ℚ)) = ((12 : Nat) : ℚ)
    norm_num [digitsVal]
  rw [hval, numToStr_natCast]
  decide

end CalcModel
